import Mathlib

/-!
Verification development for the auto-request-review GitHub action.

The JavaScript sources `src/github.js` and `src/index.js` are shallowly
embedded as pure Lean functions.  External network calls (octokit) are
modelled as oracle parameters (a rejected promise is a `false` oracle
answer), and the side effects a run performs are collected into explicit
effect lists, mirroring what the sinon-stub based test suite observes.
JavaScript `undefined` is rendered as `Option.none`.
-/

set_option maxRecDepth 100000

namespace AutoRequestReview

/-- JS `reviewer.startsWith('team:')` — character prefix test. -/
def startsWithTeam (s : String) : Bool :=
  "team:".data.isPrefixOf s.data

/-- JS `team_with_prefix.replace('team:', '')` as applied in `split_reviewers`:
the argument always starts with `team:`, so the first occurrence removed by
`replace` is exactly the five leading characters. -/
def stripTeam (s : String) : String :=
  ⟨s.data.drop 5⟩

/-- From `src/github.js` (`split_reviewers`): splits a reviewer list into
individual aliases and team aliases (team prefix removed).  lodash
`partition` returns the matching elements and the rest, both in input
order. -/
def split_reviewers (reviewers : List String) : List String × List String :=
  let teams_prefixed := reviewers.filter (fun r => startsWithTeam r)
  let individuals := reviewers.filter (fun r => !startsWithTeam r)
  let teams := teams_prefixed.map stripTeam
  (individuals, teams)

/-- From `src/github.js` (`filter_only_collaborators`): each team alias is
checked through `octokit.teams.checkPermissionsForRepoInOrg` and each
individual through `octokit.repos.checkCollaborator`.  The oracles
`teamOk` and `indOk` say whether the corresponding promise resolves; a
rejected promise is caught and contributes no collaborator entry
(`core.error` returns `undefined`), so a failed check never aborts the
batch.  `Promise.allSettled` keeps the order: team responses were pushed
first, then individual responses. -/
def filter_only_collaborators (indOk teamOk : String → Bool)
    (reviewers : List String) : List String × List String :=
  let p := split_reviewers reviewers
  let individuals := p.1
  let teams := p.2
  let collaborators :=
    (teams.filter teamOk).map (fun t => "team:" ++ t) ++ individuals.filter indOk
  let filtered_reviewers := reviewers.filter (fun r => collaborators.contains r)
  let no_access_reviewers := reviewers.filter (fun r => !collaborators.contains r)
  (filtered_reviewers, no_access_reviewers)

/-- The base64 alphabet used by `Buffer.toString('base64')`. -/
def base64Table : List Char :=
  "ABCDEFGHIJKLMNOPQRSTUVWXYZabcdefghijklmnopqrstuvwxyz0123456789+/".data

def b64c (n : Nat) : Char := base64Table.getD n 'A'

/-- Standard base64 encoding of a byte sequence, with padding. -/
def base64Go : List Nat → List Char
  | b1 :: b2 :: b3 :: rest =>
    b64c (b1 / 4) :: b64c (b1 % 4 * 16 + b2 / 16) ::
      b64c (b2 % 16 * 4 + b3 / 64) :: b64c (b3 % 64) :: base64Go rest
  | [b1, b2] => [b64c (b1 / 4), b64c (b1 % 4 * 16 + b2 / 16), b64c (b2 % 16 * 4), '=']
  | [b1] => [b64c (b1 / 4), b64c (b1 % 4 * 16), '=', '=']
  | [] => []

/-- UTF-8 bytes of one code point, as produced by `Buffer.from(string)`. -/
def utf8Bytes (c : Nat) : List Nat :=
  if c < 128 then [c]
  else if c < 2048 then [192 + c / 64, 128 + c % 64]
  else if c < 65536 then [224 + c / 4096, 128 + c / 64 % 64, 128 + c % 64]
  else [240 + c / 262144, 128 + c / 4096 % 64, 128 + c / 64 % 64, 128 + c % 64]

def strBytes (s : String) : List Nat :=
  (s.data.map (fun c => utf8Bytes c.toNat)).flatten

/-- The per-run context fields `getCommentFooter` and the comment calls
read: the repository name and the pull request number. -/
structure Ctx where
  repo : String
  prNumber : Nat
deriving DecidableEq

/-- From `src/github.js` (`getCommentFooter`): a comment key unique to the
pull request, base64 of `repo-number`, appended to a fixed sentence. -/
def getCommentFooter (ctx : Ctx) : String :=
  "Comment added by Auto Reviewer Robot 🤖: " ++
    ⟨base64Go (strBytes (ctx.repo ++ "-" ++ Nat.repr ctx.prNumber))⟩

/-- JS `s.includes(pat)` — substring containment. -/
def strIncludes (s pat : String) : Bool :=
  decide (pat.data <:+: s.data)

/-- An issue comment as `post_notification` and `get_existing_comment` see
it: either field may be absent (`undefined`). -/
structure Comment where
  id : Option Nat
  body : Option String
deriving DecidableEq

/-- From `src/github.js` (`get_existing_comment`): keep the comments whose
body (absent body read as the empty string) contains the robot footer and
return the first one (`Array.shift` on the filtered list, `undefined` when
empty). -/
def get_existing_comment (ctx : Ctx) (comments : List Comment) : Option Comment :=
  let robotFooter := getCommentFooter ctx
  (comments.filter (fun c => strIncludes (c.body.getD "") robotFooter)).head?

/-- From `src/github.js` (`get_missing_access_message`).  The argument is
`Option` because the call site in `post_notification` passes no argument
(JS `undefined`); lodash `partition` over `undefined` yields two empty
lists, so `none` behaves as the empty reviewer list. -/
def get_missing_access_message (ctx : Ctx) (reviewers : Option (List String)) : String :=
  let m0 := "The following reviewers did not have access to be added as reviewers, please review their access:\n"
  let p := split_reviewers (reviewers.getD [])
  let individuals := p.1
  let teams := p.2
  let m1 :=
    if individuals.isEmpty then m0
    else m0 ++ "### *Individual Alias*\n" ++
      String.join (individuals.map (fun a => "- " ++ a ++ "\n"))
  let m2 :=
    if teams.isEmpty then m1
    else m1 ++ "### *Team Alias*\n" ++
      String.join (teams.map (fun a => "- " ++ a ++ "\n"))
  m2 ++ "\n" ++ getCommentFooter ctx

/-- The octokit comment operations `post_notification` can perform. -/
inductive NotifyEffect
  | create (issueNumber : Nat) (body : String)
  | update (commentId : Nat) (body : String)
deriving DecidableEq

/-- JS truthiness of `comment?.id`: absent comment or absent id or id zero
is falsy. -/
def truthyId : Option Comment → Option Nat
  | none => none
  | some c =>
    match c.id with
    | none => none
    | some i => if i = 0 then none else some i

/-- JS `comment?.body` as the argument of `String.localeCompare`: an absent
body is coerced to the string literal `undefined`. -/
def compareBody (c : Comment) : String :=
  c.body.getD "undefined"

/-- From `src/github.js` (`post_notification`).  Faithful to the source:
in the non-empty branch the message is built by calling
`get_missing_access_message()` with NO argument, and the existing comment
is updated only when `message.localeCompare(comment?.body)` is non-zero
(the strings differ); with an empty reviewer list and a comment with a
truthy id, the resolved message is written unconditionally. -/
def post_notification (ctx : Ctx) (reviewers : List String)
    (comment : Option Comment) : List NotifyEffect :=
  if !reviewers.isEmpty then
    let message := get_missing_access_message ctx none
    match truthyId comment with
    | some cid =>
      if message = (comment.map compareBody).getD "undefined" then []
      else [.update cid message]
    | none => [.create ctx.prNumber message]
  else
    match truthyId comment with
    | some cid =>
      [.update cid ("All reviewer issues have been resolved!\n" ++ getCommentFooter ctx)]
    | none => []

/-- A GraphQL `requestedReviewer` node: a User carries a login, a Team a
slug.  Fields absent in the response are `none`. -/
structure ReqReviewer where
  slug : Option String
  login : Option String
deriving DecidableEq

/-- The author object of a `PullRequestReview` node. -/
structure ReviewAuthor where
  login : Option String
deriving DecidableEq

/-- One node of the pull request timeline, holding whichever fields the
two requested item types can produce. -/
structure TimelineEvent where
  requestedReviewer : Option ReqReviewer
  state : Option String
  author : Option ReviewAuthor
deriving DecidableEq

/-- JS truthiness of an optional string field: absent or empty is falsy. -/
def truthyStr : Option String → Bool
  | none => false
  | some s => !s.isEmpty

/-- From `src/github.js` (`fetch_reviewers` forEach body): the string one
timeline event adds to the reviewer set, if any — team slug first, then
individual login, then the author of an APPROVED review. -/
def event_add (e : TimelineEvent) : Option String :=
  if truthyStr (e.requestedReviewer.bind ReqReviewer.slug) then
    some ("team:" ++ (e.requestedReviewer.bind ReqReviewer.slug).getD "")
  else if truthyStr (e.requestedReviewer.bind ReqReviewer.login) then
    some ((e.requestedReviewer.bind ReqReviewer.login).getD "")
  else if truthyStr e.state && (e.state.getD "" == "APPROVED")
      && truthyStr (e.author.bind ReviewAuthor.login) then
    some ((e.author.bind ReviewAuthor.login).getD "")
  else none

/-- Insertion into a JS `Set`, keeping first-insertion order. -/
def addSet (acc : List String) (x : String) : List String :=
  if x ∈ acc then acc else acc ++ [x]

/-- Spread of a JS `Set` built by inserting a list of elements in order. -/
def jsSetDedup (l : List String) : List String :=
  l.foldl addSet []

/-- From `src/github.js` (`fetch_reviewers`): fold the timeline nodes into
a `Set` and spread it back to a list. -/
def fetch_reviewers (nodes : List TimelineEvent) : List String :=
  nodes.foldl
    (fun acc e =>
      match event_add e with
      | some r => addSet acc r
      | none => acc) []

/-- A JavaScript error as the catch block in `run` inspects it: an
optional numeric `status` and a `message`. -/
structure JsError where
  status : Option Nat
  message : String
deriving DecidableEq

/-- Modelled from the spec: `src/constants.js` is not in the sources; the
spec describes a distinguished local-file-missing condition, so the
sentinel is an opaque fixed string compared by the catch block in `run`. -/
def LOCAL_FILE_MISSING : String := "local file missing"

/-- The external calls a run can make, in the order `src/index.js` issues
them.  `fetchDefaultReviewers` marks the call into the reviewer module
default computation (pure, but recorded so that consultation of the
defaults is observable). -/
inductive RunEffect
  | fetchChangedFiles
  | fetchReviewers
  | fetchDefaultReviewers
  | filterOnlyCollaborators (args : List String)
  | assignReviewers (args : List String)
  | getExistingComment
  | postNotification (missing : List String) (comment : Option Comment)
deriving DecidableEq

/-- The environment a run executes against.  The reviewer-module functions
(`identify_reviewers_by_changed_files`, `identify_reviewers_by_author`,
`fetch_other_group_members`, `fetch_default_reviewers`,
`fetch_all_reviewers`, `randomly_pick_reviewers`, `should_request_review`)
are pure functions of the fixed config and pull request, so their results
for this run appear as fields; the two octokit-backed collaborators are
oracle functions. -/
structure RunEnv where
  fetch_config : Except JsError Unit
  should_request : Bool
  requested_approved_reviewers : List String
  reviewers_based_on_files : List String
  reviewers_based_on_author : List String
  reviewers_from_same_teams : List String
  default_reviewers : List String
  validate_all : Bool
  all_reviewers : List String
  filter_only_collaborators : List String → List String × List String
  randomly_pick_reviewers : List String → List String
  existing_comment : Option Comment

/-- The candidate union of line 67 of `src/index.js`: the three resolution
results, spread into a `Set` and back. -/
def unionOf (env : RunEnv) : List String :=
  jsSetDedup (env.reviewers_based_on_files ++ env.reviewers_based_on_author ++
    env.reviewers_from_same_teams)

/-- From `src/index.js` lines 82-122: the tail of `run` once a non-empty
candidate list exists — remove already requested or approved reviewers,
access-validate, optionally run the validate-all second pass, sample,
assign when non-empty, fetch the existing comment and notify when there
are missing-access aliases or a comment exists. -/
def run_rest (env : RunEnv) (candidates : List String) : List RunEffect :=
  let reviewers1 := candidates.filter (fun r => !env.requested_approved_reviewers.contains r)
  let fr := env.filter_only_collaborators reviewers1
  let validated := fr.1
  let missing1 := fr.2
  let secondPass :=
    if env.validate_all then
      let all1 := env.all_reviewers.filter
        (fun r => !validated.contains r && !missing1.contains r)
      let fr2 := env.filter_only_collaborators all1
      ([RunEffect.filterOnlyCollaborators all1], missing1 ++ fr2.2)
    else ([], missing1)
  let missing := secondPass.2
  let picked := env.randomly_pick_reviewers validated
  [RunEffect.filterOnlyCollaborators reviewers1] ++ secondPass.1 ++
    (if !picked.isEmpty then [RunEffect.assignReviewers picked] else []) ++
    [RunEffect.getExistingComment] ++
    (if !missing.isEmpty || env.existing_comment.isSome then
      [RunEffect.postNotification missing env.existing_comment] else [])

/-- From `src/index.js` (`run`): the whole orchestration.  A soft exit
returns an empty effect list; an uncaught error propagates as `.error`. -/
def run (env : RunEnv) : Except JsError (List RunEffect) :=
  match env.fetch_config with
  | .error e =>
    if e.status = some 404 then .ok []
    else if e.message = LOCAL_FILE_MISSING then .ok []
    else .error e
  | .ok _ =>
    if !env.should_request then .ok []
    else
      let union := unionOf env
      if union.isEmpty then
        if env.default_reviewers.isEmpty then
          .ok [RunEffect.fetchChangedFiles, RunEffect.fetchReviewers,
            RunEffect.fetchDefaultReviewers]
        else
          .ok ([RunEffect.fetchChangedFiles, RunEffect.fetchReviewers,
            RunEffect.fetchDefaultReviewers] ++ run_rest env env.default_reviewers)
      else
        .ok ([RunEffect.fetchChangedFiles, RunEffect.fetchReviewers] ++
          run_rest env union)

/-- Modelled from the spec: `src/reviewer.js` is not in the sources.  The
group expander of spec 4.2 — a reference that names a group expands,
cycle-safely, to the union of the expansions of its members; any other
reference is a singleton.  The `allowed` list starts as all group keys and
shrinks as groups are entered, realising the visited set. -/
def expand_ref (groups : List (String × List String)) :
    List String → String → List String
  | allowed, ref =>
    match groups.find? (fun g => g.1 = ref) with
    | none => [ref]
    | some g =>
      if h : ref ∈ allowed then
        (g.2.map (expand_ref groups (allowed.erase ref))).flatten
      else []
termination_by allowed ref => allowed.length
decreasing_by
  simpa [List.length_erase_of_mem h] using Nat.sub_lt (List.length_pos.mpr (by
    intro hnil
    exact absurd (hnil ▸ h) (List.not_mem_nil ref))) Nat.one_pos

/-- Modelled from the spec: group expansion entered with every group key
allowed. -/
def expand (groups : List (String × List String)) (ref : String) : List String :=
  expand_ref groups (groups.map Prod.fst) ref

/-- Modelled from the spec: `identify_reviewers_by_changed_files` of spec
4.4 — for every file rule whose pattern matches some changed file, union
the expansions of its targets, then remove every alias in `excludes` from
the final union.  The glob matcher is the oracle `matches`. -/
def identify_reviewers_by_changed_files (globMatch : String → String → Bool)
    (files : List (String × List String)) (groups : List (String × List String))
    (changed_files excludes : List String) : List String :=
  let hits := files.filter (fun rule => changed_files.any (fun f => globMatch rule.1 f))
  let expanded := (hits.map (fun rule => (rule.2.map (expand groups)).flatten)).flatten
  (jsSetDedup expanded).filter (fun a => !excludes.contains a)

/-- Well-formedness of a timeline node as GraphQL produces it: a node is
either a review-request event (no review fields) or a review (no
requested reviewer), and a requested reviewer is a User or a Team, never
both. -/
def wfEvent (e : TimelineEvent) : Prop :=
  (e.requestedReviewer = none ∨ (e.state = none ∧ e.author = none)) ∧
  ¬(truthyStr (e.requestedReviewer.bind ReqReviewer.slug) = true ∧
    truthyStr (e.requestedReviewer.bind ReqReviewer.login) = true)

instance (e : TimelineEvent) : Decidable (wfEvent e) := by
  unfold wfEvent
  infer_instance

/-- A fixed small context used for concrete witnesses and counterexamples. -/
def ctx0 : Ctx := ⟨"r", 1⟩

/-- The message the empty branch of `post_notification` writes for `ctx0`. -/
def resolvedMsg0 : String :=
  "All reviewer issues have been resolved!\n" ++ getCommentFooter ctx0

/-- A run environment whose config fetch fails with HTTP status 404. -/
def env404 : RunEnv :=
  ⟨.error ⟨some 404, "not found"⟩, true, [], [], [], [], [], false, [],
    fun l => (l, []), fun l => l, none⟩

/-- A run environment for the validate-all scenario on the defaults
fallback path: no resolution function matches, the default reviewer wario
misses access in the first phase, and the second phase misses mario. -/
def envC3 : RunEnv :=
  ⟨.ok (), true, [], [], [], [], ["wario"], true, ["mario", "luigi"],
    fun l => (l.filter (fun a => !(a == "wario" || a == "mario")),
              l.filter (fun a => a == "wario" || a == "mario")),
    fun l => l, some ⟨some 123, some "test comment"⟩⟩

/-- A run environment where nothing matches and no defaults exist. -/
def envC6 : RunEnv :=
  ⟨.ok (), true, [], [], [], [], [], false, [],
    fun l => (l, []), fun l => l, none⟩

/-- A run environment for the current-reviewer exclusion scenario:
candidates mario and princess-peach, princess-peach already engaged. -/
def envC7 : RunEnv :=
  ⟨.ok (), true, ["princess-peach"], ["mario", "princess-peach"], [], [], [],
    false, [], fun l => (l, []), fun l => l, none⟩

/-! Helper lemmas. -/

theorem head?_filter_eq_find? {α : Type} (p : α → Bool) (l : List α) :
    (l.filter p).head? = l.find? p := by
  induction l with
  | nil => rfl
  | cons a l ih => by_cases h : p a <;> simp [List.filter_cons, List.find?_cons, h, ih]

theorem find?_split {α : Type} (p : α → Bool) (l : List α) (c : α)
    (h : l.find? p = some c) :
    ∃ pre post, l = pre ++ c :: post ∧ p c = true ∧ ∀ x ∈ pre, p x = false := by
  induction l with
  | nil => simp at h
  | cons a l ih =>
    by_cases ha : p a = true
    · rw [List.find?_cons_of_pos _ ha] at h
      obtain rfl := Option.some.inj h
      exact ⟨[], l, rfl, ha, by simp⟩
    · rw [List.find?_cons_of_neg _ ha] at h
      obtain ⟨pre, post, rfl, hc, hpre⟩ := ih h
      refine ⟨a :: pre, post, rfl, hc, ?_⟩
      intro x hx
      rcases List.mem_cons.mp hx with rfl | hx
      · simpa using ha
      · exact hpre x hx

theorem footer_data_ne_nil (ctx : Ctx) : (getCommentFooter ctx).data ≠ [] := by
  rw [getCommentFooter, String.data_append]
  intro hcontra
  exact absurd (List.append_eq_nil.mp hcontra).1 (by decide)

theorem strIncludes_empty_footer (ctx : Ctx) :
    strIncludes "" (getCommentFooter ctx) = false := by
  simp only [strIncludes, decide_eq_false_iff_not]
  intro hcontra
  exact footer_data_ne_nil ctx (List.infix_nil.mp hcontra)

/-- C10: `get_existing_comment` returns the first comment, in listing
order, whose body contains the per-pull-request footer; a comment with an
absent body never matches (the footer is non-empty), and the result is
`none` exactly when no comment matches — no failure path exists. -/
theorem get_existing_comment_c10 (ctx : Ctx) (comments : List Comment) :
    get_existing_comment ctx comments =
      comments.find? (fun c => strIncludes (c.body.getD "") (getCommentFooter ctx)) ∧
    (∀ c : Comment, c.body = none →
      strIncludes (c.body.getD "") (getCommentFooter ctx) = false) ∧
    (get_existing_comment ctx comments = none ↔
      ∀ c ∈ comments, strIncludes (c.body.getD "") (getCommentFooter ctx) = false) ∧
    (∀ c, get_existing_comment ctx comments = some c →
      ∃ pre post, comments = pre ++ c :: post ∧
        strIncludes (c.body.getD "") (getCommentFooter ctx) = true ∧
        ∀ x ∈ pre, strIncludes (x.body.getD "") (getCommentFooter ctx) = false) := by
  have hmain : get_existing_comment ctx comments =
      comments.find? (fun c => strIncludes (c.body.getD "") (getCommentFooter ctx)) :=
    head?_filter_eq_find? _ comments
  refine ⟨hmain, ?_, ?_, ?_⟩
  · intro c hc
    rw [hc]
    exact strIncludes_empty_footer ctx
  · rw [hmain, List.find?_eq_none]
    constructor
    · intro h c hc
      simpa using h c hc
    · intro h c hc
      simp [h c hc]
  · intro c hc
    rw [hmain] at hc
    exact find?_split _ comments c hc

/-- Witness for C10: a listing holding only a comment with an absent body
yields no existing robot comment. -/
theorem get_existing_comment_c10_witness :
    get_existing_comment ⟨"r", 1⟩ [⟨some 1, none⟩] = none := by
  exact (get_existing_comment_c10 ⟨"r", 1⟩ [⟨some 1, none⟩]).2.2.1.mpr (by decide)

/-- C1: calling `post_notification` with the non-empty list `[mario]` and
no existing comment creates exactly one comment, but the source builds the
body by calling `get_missing_access_message` with no argument, so the body
omits the alias `mario` (it carries only the header and footer), while the
message function applied to the actual list does contain the alias — the
call site drops its argument. -/
theorem post_notification_c1_bug :
    post_notification ctx0 ["mario"] none =
      [NotifyEffect.create 1 (get_missing_access_message ctx0 none)] ∧
    strIncludes (get_missing_access_message ctx0 none) "mario" = false ∧
    strIncludes (get_missing_access_message ctx0 none) (getCommentFooter ctx0) = true ∧
    strIncludes (get_missing_access_message ctx0 (some ["mario"])) "mario" = true := by
  exact ⟨rfl, by decide, by decide, by decide⟩

/-- C4 counterexample: with an empty missing-access list and an existing
comment whose body already equals the resolved message, the source still
issues an update call — the claim that no update happens when the new
content equals the existing body fails in the empty branch. -/
theorem post_notification_c4_counterexample :
    post_notification ctx0 [] (some ⟨some 7, some resolvedMsg0⟩) =
      [NotifyEffect.update 7 resolvedMsg0] ∧
    post_notification ctx0 [] (some ⟨some 7, some resolvedMsg0⟩) ≠ [] := by
  exact ⟨by decide, by decide⟩

/-- C4 amended: for a comment with a truthy id, the non-empty branch
updates exactly when the generated message differs from the comment body,
and never creates; the empty branch always issues an update writing the
resolved message, even when the body already equals it. -/
theorem post_notification_c4_amended (ctx : Ctx) (c : Comment)
    (reviewers : List String) (i : Nat) (hid : c.id = some i) (hi : i ≠ 0) :
    post_notification ctx reviewers (some c) =
      if reviewers.isEmpty then
        [NotifyEffect.update i
          ("All reviewer issues have been resolved!\n" ++ getCommentFooter ctx)]
      else if get_missing_access_message ctx none = compareBody c then []
      else [NotifyEffect.update i (get_missing_access_message ctx none)] := by
  have htid : truthyId (some c) = some i := by simp [truthyId, hid, hi]
  by_cases hrev : reviewers.isEmpty
  · simp [post_notification, hrev, htid]
  · by_cases hmsg : get_missing_access_message ctx none = compareBody c
    · simp [post_notification, hrev, htid, hmsg, compareBody]
    · simp [post_notification, hrev, htid, hmsg, compareBody]

/-- Witness for the amended C4: a differing body is rewritten with the
generated message through a single update call. -/
theorem post_notification_c4_witness :
    post_notification ctx0 ["mario"] (some ⟨some 7, some "old"⟩) =
      [NotifyEffect.update 7 (get_missing_access_message ctx0 none)] := by
  have h := post_notification_c4_amended ctx0 ⟨some 7, some "old"⟩ ["mario"] 7 rfl
    (by decide)
  rw [if_neg (by decide), if_neg (by decide)] at h
  exact h

theorem marker_not_mem_run_rest (env : RunEnv) (c : List String) :
    RunEffect.fetchDefaultReviewers ∉ run_rest env c := by
  by_cases hv : env.validate_all = true <;>
    simp [run_rest, hv, List.mem_ite_nil_right]

/-- C5: when `fetch_config` fails, `run` soft-exits with no further
external call on a 404 status or on the local-file-missing message, and
re-raises any other error unchanged. -/
theorem run_c5 (env : RunEnv) (e : JsError) (h : env.fetch_config = .error e) :
    run env =
      (if e.status = some 404 then .ok []
       else if e.message = LOCAL_FILE_MISSING then .ok []
       else .error e) := by
  simp [run, h]

/-- Witness for C5: a 404 config fetch produces a successful run with an
empty effect trace. -/
theorem run_c5_witness : run env404 = .ok [] := by
  have h := run_c5 env404 ⟨some 404, "not found"⟩ rfl
  rw [if_pos (by decide)] at h
  exact h

/-- C6: the default reviewers are consulted exactly when the union of the
three resolution functions is empty; with empty defaults the run stops
with no assignment and no notification, and with non-empty defaults they
become the candidate set for the remaining pipeline. -/
theorem run_c6 (env : RunEnv) (hc : env.fetch_config = .ok ())
    (hs : env.should_request = true) :
    (unionOf env ≠ [] →
      run env = .ok ([RunEffect.fetchChangedFiles, RunEffect.fetchReviewers] ++
        run_rest env (unionOf env)) ∧
      RunEffect.fetchDefaultReviewers ∉
        run_rest env (unionOf env)) ∧
    (unionOf env = [] → env.default_reviewers = [] →
      run env = .ok [RunEffect.fetchChangedFiles, RunEffect.fetchReviewers,
        RunEffect.fetchDefaultReviewers]) ∧
    (unionOf env = [] → env.default_reviewers ≠ [] →
      run env = .ok ([RunEffect.fetchChangedFiles, RunEffect.fetchReviewers,
        RunEffect.fetchDefaultReviewers] ++ run_rest env env.default_reviewers)) := by
  refine ⟨fun hu => ⟨?_, marker_not_mem_run_rest env _⟩, fun hu hd => ?_, fun hu hd => ?_⟩
  · simp [run, hc, hs, hu]
  · simp [run, hc, hs, hu, hd]
  · simp [run, hc, hs, hu, hd]

/-- Witness for C6: with no resolved reviewers and no defaults the run
performs only the two fetches and the defaults lookup. -/
theorem run_c6_witness :
    run envC6 = .ok [RunEffect.fetchChangedFiles, RunEffect.fetchReviewers,
      RunEffect.fetchDefaultReviewers] :=
  (run_c6 envC6 rfl rfl).2.1 rfl rfl

theorem run_rest_cons (env : RunEnv) (c : List String) :
    ∃ rest, run_rest env c =
      RunEffect.filterOnlyCollaborators
        (c.filter (fun r => !env.requested_approved_reviewers.contains r)) :: rest := by
  exact ⟨_, rfl⟩

/-- C7: the list handed to the access validation is exactly the candidate
set (the resolution union, or the defaults when that union is empty)
minus the already requested or approved reviewers, and it is the first
external call of the remaining pipeline. -/
theorem run_c7 (env : RunEnv) (hc : env.fetch_config = .ok ())
    (hs : env.should_request = true) :
    (unionOf env ≠ [] →
      run env = .ok ([RunEffect.fetchChangedFiles, RunEffect.fetchReviewers] ++
        run_rest env (unionOf env)) ∧
      ∃ rest, run_rest env (unionOf env) =
        RunEffect.filterOnlyCollaborators
          ((unionOf env).filter
              (fun r => !env.requested_approved_reviewers.contains r)) :: rest) ∧
    (unionOf env = [] → env.default_reviewers ≠ [] →
      run env = .ok ([RunEffect.fetchChangedFiles, RunEffect.fetchReviewers,
        RunEffect.fetchDefaultReviewers] ++ run_rest env env.default_reviewers) ∧
      ∃ rest, run_rest env env.default_reviewers =
        RunEffect.filterOnlyCollaborators
          (env.default_reviewers.filter
            (fun r => !env.requested_approved_reviewers.contains r)) :: rest) := by
  refine ⟨fun hu => ⟨?_, run_rest_cons env _⟩, fun hu hd => ⟨?_, run_rest_cons env _⟩⟩
  · simp [run, hc, hs, hu]
  · simp [run, hc, hs, hu, hd]

/-- Witness for C7, the scenario of the spec: candidates mario and
princess-peach with princess-peach already engaged send exactly mario to
the access check. -/
theorem run_c7_witness :
    (run_rest envC7 (unionOf envC7)).head? =
      some (RunEffect.filterOnlyCollaborators ["mario"]) := by
  obtain ⟨rest, hrest⟩ := ((run_c7 envC7 rfl rfl).1 (by decide)).2
  rw [hrest, List.head?_cons]
  exact congrArg some (congrArg RunEffect.filterOnlyCollaborators (by decide))

/-- C3: in validate-all mode, on both candidate paths (the resolution
union when it is non-empty, and the default reviewers when the union is
empty), the second access-validation pass receives exactly the full
configuration universe minus first-pass validated and minus first-pass
missing aliases; its missing output is appended to the notification
report while its validated output is discarded, and the assignment call
receives the sampled first-pass validated reviewers only. -/
theorem run_c3 (env : RunEnv) (hc : env.fetch_config = .ok ())
    (hs : env.should_request = true) (hv : env.validate_all = true) :
    (unionOf env ≠ [] →
      run env = .ok ([RunEffect.fetchChangedFiles, RunEffect.fetchReviewers] ++
        run_rest env (unionOf env))) ∧
    (unionOf env = [] → env.default_reviewers ≠ [] →
      run env = .ok ([RunEffect.fetchChangedFiles, RunEffect.fetchReviewers,
        RunEffect.fetchDefaultReviewers] ++ run_rest env env.default_reviewers)) ∧
    ∀ candidates : List String, run_rest env candidates =
      (let reviewers1 := candidates.filter
        (fun r => !env.requested_approved_reviewers.contains r)
      let validated := (env.filter_only_collaborators reviewers1).1
      let missing1 := (env.filter_only_collaborators reviewers1).2
      let all1 := env.all_reviewers.filter
        (fun r => !validated.contains r && !missing1.contains r)
      let missing := missing1 ++ (env.filter_only_collaborators all1).2
      let picked := env.randomly_pick_reviewers validated
      [RunEffect.filterOnlyCollaborators reviewers1,
        RunEffect.filterOnlyCollaborators all1] ++
        (if !picked.isEmpty then [RunEffect.assignReviewers picked] else []) ++
        [RunEffect.getExistingComment] ++
        (if !missing.isEmpty || env.existing_comment.isSome then
          [RunEffect.postNotification missing env.existing_comment] else [])) := by
  refine ⟨fun hu => ?_, fun hu hd => ?_, fun candidates => ?_⟩
  · simp [run, hc, hs, hu]
  · simp [run, hc, hs, hu, hd]
  · simp [run_rest, hv]

/-- Witness for C3 on the defaults fallback path: the resolution union is
empty, the default reviewer wario misses access in the first phase, the
second phase checks the remaining universe and misses mario, and the
notification receives both while no assignment happens. -/
theorem run_c3_witness :
    run envC3 = .ok [RunEffect.fetchChangedFiles, RunEffect.fetchReviewers,
      RunEffect.fetchDefaultReviewers,
      RunEffect.filterOnlyCollaborators ["wario"],
      RunEffect.filterOnlyCollaborators ["mario", "luigi"],
      RunEffect.getExistingComment,
      RunEffect.postNotification ["wario", "mario"]
        (some ⟨some 123, some "test comment"⟩)] := by
  have h := run_c3 envC3 rfl rfl rfl
  rw [h.2.1 (by decide) (by decide), h.2.2 envC3.default_reviewers]
  exact congrArg Except.ok (by decide)

theorem mem_addSet (acc : List String) (x y : String) :
    y ∈ addSet acc x ↔ y ∈ acc ∨ x = y := by
  by_cases h : x ∈ acc
  · simp only [addSet, if_pos h]
    constructor
    · exact Or.inl
    · rintro (hy | rfl)
      exacts [hy, h]
  · simp only [addSet, if_neg h, List.mem_append, List.mem_singleton]
    constructor
    · rintro (hy | rfl)
      exacts [Or.inl hy, Or.inr rfl]
    · rintro (hy | rfl)
      exacts [Or.inl hy, Or.inr rfl]

theorem addSet_nodup (acc : List String) (x : String) (h : acc.Nodup) :
    (addSet acc x).Nodup := by
  by_cases hx : x ∈ acc
  · simpa [addSet, hx] using h
  · rw [addSet, if_neg hx, ← List.concat_eq_append]
    exact List.Nodup.concat hx h

theorem fetch_loop_mem (nodes : List TimelineEvent) (acc : List String) (y : String) :
    (y ∈ nodes.foldl
      (fun acc e =>
        match event_add e with
        | some r => addSet acc r
        | none => acc) acc) ↔
      y ∈ acc ∨ ∃ e ∈ nodes, event_add e = some y := by
  induction nodes generalizing acc with
  | nil => simp
  | cons a l ih =>
    simp only [List.foldl_cons, List.exists_mem_cons_iff]
    cases ha : event_add a with
    | none => rw [ih]; simp [ha]
    | some r =>
      rw [ih]
      simp only [mem_addSet, ha, Option.some.injEq, or_assoc]

theorem fetch_loop_nodup (nodes : List TimelineEvent) (acc : List String)
    (h : acc.Nodup) :
    (nodes.foldl
      (fun acc e =>
        match event_add e with
        | some r => addSet acc r
        | none => acc) acc).Nodup := by
  induction nodes generalizing acc with
  | nil => simpa
  | cons a l ih =>
    simp only [List.foldl_cons]
    cases ha : event_add a with
    | none => simp only [ha]; exact ih acc h
    | some r => simp only [ha]; exact ih (addSet acc r) (addSet_nodup acc r h)

theorem truthyStr_some_iff (t : String) : truthyStr (some t) = true ↔ t ≠ "" := by
  simp only [truthyStr, Bool.not_eq_true', Bool.eq_false_iff, Ne, String.isEmpty_iff]

theorem event_add_of_slug (e : TimelineEvent) (rr : ReqReviewer) (t : String)
    (h1 : e.requestedReviewer = some rr) (h2 : rr.slug = some t) (h3 : t ≠ "") :
    event_add e = some ("team:" ++ t) := by
  have hts : truthyStr (e.requestedReviewer.bind ReqReviewer.slug) = true := by
    rw [h1, Option.some_bind, h2]
    exact (truthyStr_some_iff t).mpr h3
  rw [event_add, if_pos hts, h1, Option.some_bind, h2,
    Option.getD_some]

theorem event_add_of_login (e : TimelineEvent) (rr : ReqReviewer) (l : String)
    (h1 : e.requestedReviewer = some rr) (h2 : rr.login = some l) (h3 : l ≠ "")
    (h4 : truthyStr (e.requestedReviewer.bind ReqReviewer.slug) = false) :
    event_add e = some l := by
  have htl : truthyStr (e.requestedReviewer.bind ReqReviewer.login) = true := by
    rw [h1, Option.some_bind, h2]
    exact (truthyStr_some_iff l).mpr h3
  rw [event_add, if_neg (by simp [h4]), if_pos htl, h1]
  simp [h2]

theorem event_add_of_approved (e : TimelineEvent) (a : ReviewAuthor) (l : String)
    (h0 : e.requestedReviewer = none) (h1 : e.state = some "APPROVED")
    (h2 : e.author = some a) (h3 : a.login = some l) (h4 : l ≠ "") :
    event_add e = some l := by
  have hns : truthyStr (e.requestedReviewer.bind ReqReviewer.slug) = false := by
    rw [h0]; rfl
  have hnl : truthyStr (e.requestedReviewer.bind ReqReviewer.login) = false := by
    rw [h0]; rfl
  have hcond : (truthyStr e.state && (e.state.getD "" == "APPROVED")
      && truthyStr (e.author.bind ReviewAuthor.login)) = true := by
    rw [h1, h2]
    refine Bool.and_eq_true_iff.mpr ⟨Bool.and_eq_true_iff.mpr ⟨by decide, by decide⟩, ?_⟩
    simpa [h3] using (truthyStr_some_iff l).mpr h4
  rw [event_add, if_neg (by simp [hns]), if_neg (by simp [hnl]), if_pos hcond, h2]
  simp [h3]

theorem event_add_some_elim (e : TimelineEvent) (s : String)
    (h : event_add e = some s) :
    (∃ rr t, e.requestedReviewer = some rr ∧ rr.slug = some t ∧ t ≠ "" ∧
      s = "team:" ++ t) ∨
    (∃ rr l, e.requestedReviewer = some rr ∧ rr.login = some l ∧ l ≠ "" ∧ s = l) ∨
    (e.state = some "APPROVED" ∧
      ∃ a l, e.author = some a ∧ a.login = some l ∧ l ≠ "" ∧ s = l) := by
  rw [event_add] at h
  by_cases hs1 : truthyStr (e.requestedReviewer.bind ReqReviewer.slug) = true
  · rw [if_pos hs1] at h
    left
    cases horr : e.requestedReviewer with
    | none => rw [horr] at hs1; exact absurd hs1 (by simp [truthyStr])
    | some rr =>
      cases hslug : rr.slug with
      | none =>
        rw [horr, Option.some_bind, hslug] at hs1
        exact absurd hs1 (by simp [truthyStr])
      | some t =>
        rw [horr, Option.some_bind, hslug] at hs1 h
        rw [Option.getD_some] at h
        exact ⟨rr, t, rfl, hslug, (truthyStr_some_iff t).mp hs1,
          (Option.some.inj h).symm⟩
  · rw [if_neg hs1] at h
    by_cases hs2 : truthyStr (e.requestedReviewer.bind ReqReviewer.login) = true
    · rw [if_pos hs2] at h
      right; left
      cases horr : e.requestedReviewer with
      | none => rw [horr] at hs2; exact absurd hs2 (by simp [truthyStr])
      | some rr =>
        cases hlogin : rr.login with
        | none =>
          rw [horr, Option.some_bind, hlogin] at hs2
          exact absurd hs2 (by simp [truthyStr])
        | some l =>
          rw [horr, Option.some_bind, hlogin] at hs2 h
          rw [Option.getD_some] at h
          exact ⟨rr, l, rfl, hlogin, (truthyStr_some_iff l).mp hs2,
            (Option.some.inj h).symm⟩
    · rw [if_neg hs2] at h
      by_cases hs3 : (truthyStr e.state && (e.state.getD "" == "APPROVED")
          && truthyStr (e.author.bind ReviewAuthor.login)) = true
      · rw [if_pos hs3] at h
        right; right
        have hparts := hs3
        rw [Bool.and_assoc, Bool.and_eq_true, Bool.and_eq_true] at hparts
        obtain ⟨hst, happ, hau⟩ := hparts
        have hstate : e.state = some "APPROVED" := by
          cases hstv : e.state with
          | none => rw [hstv] at hst; exact absurd hst (by simp [truthyStr])
          | some st =>
            rw [hstv, Option.getD_some] at happ
            exact congrArg some (by simpa using happ)
        refine ⟨hstate, ?_⟩
        cases hauv : e.author with
        | none => rw [hauv] at hau; exact absurd hau (by simp [truthyStr])
        | some a =>
          cases halog : a.login with
          | none =>
            rw [hauv, Option.some_bind, halog] at hau
            exact absurd hau (by simp [truthyStr])
          | some l =>
            rw [hauv, Option.some_bind, halog] at hau h
            rw [Option.getD_some] at h
            exact ⟨a, l, rfl, halog, (truthyStr_some_iff l).mp hau,
              (Option.some.inj h).symm⟩
      · rw [if_neg hs3] at h
        exact absurd h (by simp)

/-- C8: `fetch_reviewers` is duplicate-free and holds exactly the logins
of requested individual reviewers, the team-prefixed slugs of requested
team reviewers, and the authors of APPROVED reviews; review events in any
other state, and unrecognized events, contribute nothing. -/
theorem fetch_reviewers_c8 (nodes : List TimelineEvent)
    (hwf : ∀ e ∈ nodes, wfEvent e) :
    (fetch_reviewers nodes).Nodup ∧
    ∀ s, s ∈ fetch_reviewers nodes ↔
      ((∃ e ∈ nodes, ∃ rr t, e.requestedReviewer = some rr ∧ rr.slug = some t ∧
          t ≠ "" ∧ s = "team:" ++ t) ∨
       (∃ e ∈ nodes, ∃ rr l, e.requestedReviewer = some rr ∧ rr.login = some l ∧
          l ≠ "" ∧ s = l) ∨
       (∃ e ∈ nodes, e.state = some "APPROVED" ∧
          ∃ a l, e.author = some a ∧ a.login = some l ∧ l ≠ "" ∧ s = l)) := by
  constructor
  · exact fetch_loop_nodup nodes [] List.nodup_nil
  · intro s
    have hmem := fetch_loop_mem nodes [] s
    rw [fetch_reviewers, hmem]
    simp only [List.not_mem_nil, false_or]
    constructor
    · rintro ⟨e, he, hadd⟩
      rcases event_add_some_elim e s hadd with h | h | h
      exacts [Or.inl ⟨e, he, h⟩, Or.inr (Or.inl ⟨e, he, h⟩), Or.inr (Or.inr ⟨e, he, h⟩)]
    · rintro (⟨e, he, rr, t, h1, h2, h3, rfl⟩ | ⟨e, he, rr, l, h1, h2, h3, rfl⟩ |
        ⟨e, he, hstate, a, l, h1, h2, h3, rfl⟩)
      · exact ⟨e, he, event_add_of_slug e rr t h1 h2 h3⟩
      · refine ⟨e, he, event_add_of_login e rr s h1 h2 h3 ?_⟩
        have hnotboth := (hwf e he).2
        rw [h1, Option.some_bind]
        cases hsv : truthyStr rr.slug with
        | false => rfl
        | true =>
          exfalso
          apply hnotboth
          rw [h1, Option.some_bind, hsv]
          refine ⟨rfl, ?_⟩
          show truthyStr rr.login = true
          rw [h2]
          exact (truthyStr_some_iff s).mpr h3
      · have h0 : e.requestedReviewer = none := by
          rcases (hwf e he).1 with h0 | h0
          · exact h0
          · rw [h0.1] at hstate
            exact absurd hstate (by simp)
        exact ⟨e, he, event_add_of_approved e a s h0 hstate h1 h2 h3⟩

/-- Witness for C8: a single requested-team node yields the prefixed team
alias. -/
theorem fetch_reviewers_c8_witness :
    "team:toads" ∈ fetch_reviewers [⟨some ⟨some "toads", none⟩, none, none⟩] := by
  refine ((fetch_reviewers_c8 [⟨some ⟨some "toads", none⟩, none, none⟩]
    (by decide)).2 "team:toads").mpr ?_
  exact Or.inl ⟨⟨some ⟨some "toads", none⟩, none, none⟩, by simp,
    ⟨some "toads", none⟩, "toads", rfl, rfl, by decide, rfl⟩

/-- C9 (spec-modelled, `src/reviewer.js` absent): the output of
`identify_reviewers_by_changed_files` never holds an alias of the exclude
list, in particular never the pull request author, whatever the file
rules, groups, glob matcher and changed files contribute. -/
theorem identify_reviewers_c9 (globMatch : String → String → Bool)
    (files groups : List (String × List String)) (changed excludes : List String)
    (author : String) (ha : author ∈ excludes) :
    author ∉ identify_reviewers_by_changed_files globMatch files groups
      changed excludes ∧
    ∀ x ∈ excludes, x ∉ identify_reviewers_by_changed_files globMatch files groups
      changed excludes := by
  have key : ∀ x ∈ excludes,
      x ∉ identify_reviewers_by_changed_files globMatch files groups changed excludes := by
    intro x hx hmem
    simp only [identify_reviewers_by_changed_files] at hmem
    have hcon := (List.mem_filter.mp hmem).2
    simp at hcon
    exact hcon hx
  exact ⟨key author ha, key⟩

/-- Witness for C9 at the scenario of the spec: author luigi is excluded
even though the matching rule expands the group that holds luigi. -/
theorem identify_reviewers_c9_witness :
    "luigi" ∉ identify_reviewers_by_changed_files (fun _ _ => true)
      [("**/*.js", ["mario-brothers", "princess-peach"])]
      [("mario-brothers", ["mario", "luigi"])]
      ["path/to/file.js"] ["luigi"] :=
  (identify_reviewers_c9 (fun _ _ => true)
    [("**/*.js", ["mario-brothers", "princess-peach"])]
    [("mario-brothers", ["mario", "luigi"])]
    ["path/to/file.js"] ["luigi"] "luigi" (by decide)).1

end AutoRequestReview
